import Mathlib

/-!
Verification of the tenant lifecycle subsystem of the `distro` backend
(`distro_backend/tenants/utils.py` and the schema-name hook in
`distro_backend/tenants/models.py`).

The shared control-plane database is modelled as a record holding the
`Utility` (tenant) rows, the `Domain` rows, and the set of physically
provisioned per-tenant schemas.  Each lifecycle helper of `utils.py`
becomes a pure function from a database state (plus its arguments) to an
`Except`-valued result paired with the successor database state; the
state returned on the error path is exactly what the Python code leaves
committed at that point (so the absence of `transaction.atomic` in
`add_domain_to_tenant` is observable in the model, while `create_tenant`
and `permanently_delete_tenant`, which do wrap their steps in
`transaction.atomic`, roll back to the input state on failure).

Timestamps are abstracted to `Nat` (the operations only ever store the
current time or `None`); `timezone.now()` becomes an explicit `now`
argument.
-/

namespace Distro

/-- Typed counterparts of the `ValidationError`s raised by
`distro_backend/tenants/utils.py`, named after the spec's error
taxonomy. -/
inductive TenantError where
  | notFound
  | confirmMismatchErr
  | alreadyDeleted
  | notDeleted
  | notSoftDeleted
  | duplicateDomain
  | creationError
deriving DecidableEq, Repr

/-- Model of a `Utility` row (tenant): the identity and lifecycle fields
read and written by the lifecycle operations. -/
structure Utility where
  id : Nat
  name : String
  schema_name : String
  is_active : Bool
  is_deleted : Bool
  deleted_on : Option Nat
deriving DecidableEq, Repr

/-- Model of a `Domain` row: hostname, owning tenant id, primary flag,
active flag. -/
structure Domain where
  domain : String
  tenant : Nat
  is_primary : Bool
  is_active : Bool
deriving DecidableEq, Repr

/-- Model of the shared control-plane state: the tenant rows, the domain
rows, and the names of the physically provisioned per-tenant schemas. -/
structure DB where
  utilities : List Utility
  domains : List Domain
  schemas : List String
deriving DecidableEq, Repr

/-- Model of `Utility.objects.get(id=utility_id)`: the row with the given
primary key, if any. -/
def getUtility (db : DB) (utility_id : Nat) : Option Utility :=
  db.utilities.find? (fun u => u.id == utility_id)

/-- Model of `utility.save(...)` on an existing row: replace the row with
the matching primary key. -/
def putUtility (db : DB) (u : Utility) : DB :=
  { db with utilities := db.utilities.map (fun v => if v.id == u.id then u else v) }

/-- Model of the Python guard `if confirm_name and confirm_name != utility.name`:
`None` and the empty string are falsy, so only a non-empty, non-matching
confirmation trips the check. -/
def confirmMismatch (confirm_name : Option String) (name : String) : Bool :=
  match confirm_name with
  | none => false
  | some s => !(s == ("")) && !(s == name)

/-- Characters admitted by the regex character class `[a-z0-9_]` in
`_generate_schema_name`. -/
def isSchemaChar (c : Char) : Bool :=
  (('a') ≤ c && c ≤ ('z')) || (('0') ≤ c && c ≤ ('9')) || c == ('_')

/-- Model of `re.sub(r'[^a-z0-9_]', '', name.lower().replace(' ', '_'))`:
lowercase, turn spaces into underscores, drop everything outside
`[a-z0-9_]`. -/
def normalizeName (name : String) : String :=
  String.mk (((name.data.map Char.toLower).map
    (fun c => if c == (' ') then ('_') else c)).filter isSchemaChar)

/-- Fuel-driven helper computing the decimal digits of `n`, most
significant first; `fuel ≥ n + 1` always suffices since `n / 10 < n` for
positive `n`. -/
def natDigitsAux : Nat → Nat → List Char
  | 0, _ => []
  | fuel + 1, n =>
    if n < 10 then [Char.ofNat (48 + n)]
    else natDigitsAux fuel (n / 10) ++ [Char.ofNat (48 + n % 10)]

/-- Decimal digit characters of a natural number, most significant
first, as produced by Python's `str(counter)`. -/
def natDigits (n : Nat) : List Char :=
  natDigitsAux (n + 1) n

/-- Numeric value of a most-significant-first digit string; used to show
`natDigits` is injective. -/
def digitsVal (l : List Char) : Nat :=
  l.foldl (fun a c => a * 10 + (c.toNat - 48)) 0

/-- Model of the f-string `f"{base_name}_{counter}"`. -/
def candidate (base : String) (k : Nat) : String :=
  base ++ ("_") ++ String.mk (natDigits k)

/-- Model of the `while Utility.objects.filter(schema_name=...).exists()`
loop in `_generate_schema_name`: starting from `current` (initially the
base name) and suffix `counter` (initially 1), keep moving to
`f"{base}_{counter}"` while the current candidate is taken.  The Python
loop has no fuel; the callers pass `existing.length + 1`, which is proved
below to be enough for the loop to exit exactly as the source does, on
the first free candidate. -/
def schemaLoop (existing : List String) (base : String) :
    Nat → Nat → String → String
  | 0, _, current => current
  | fuel + 1, counter, current =>
    if current ∈ existing then
      schemaLoop existing base fuel (counter + 1) (candidate base counter)
    else current

/-- Model of `_generate_schema_name(name)` against the list of existing
tenants' schema names (the table queried by
`Utility.objects.filter(schema_name=...)`, which includes soft-deleted
rows).  The Python code indexes `schema_name[0]` unconditionally; on a
name whose normalization is empty this raises `IndexError`, modelled
here as `none`. -/
def _generate_schema_name (existing : List String) (name : String) :
    Option String :=
  let schema0 := normalizeName name
  match schema0.data with
  | [] => none
  | c :: _ =>
    let base := if c.isAlpha then schema0 else ("tenant_") ++ schema0
    some (schemaLoop existing base (existing.length + 1) 1 base)

/-- Model of the `Utility.save` override in
`distro_backend/tenants/models.py`: generate a schema name from the
utility name only when none is set (`if not self.schema_name`, i.e. the
field is empty), using `re.sub(r'[^a-zA-Z0-9]', '_', self.name.lower())`
prefixed with `utility_`. -/
def Utility.save (u : Utility) : Utility :=
  if u.schema_name == ("") then
    { u with schema_name :=
        ("utility_") ++ String.mk ((u.name.data.map Char.toLower).map
          (fun c => if c.isAlphanum then c else ('_'))) }
  else u

/-- Model of `create_tenant(name, domain_name, is_primary)`: generate the
schema name from the current tenant table, insert the tenant row and the
domain row, and provision the schema, all inside one
`transaction.atomic` block — any failure (the `IndexError` from
schema-name generation on an empty normalization, or the unique
constraint on `Domain.domain`) rolls everything back and surfaces as a
`ValidationError` (`creationError`). -/
def create_tenant (db : DB) (name : String) (domain_name : String)
    (is_primary : Bool) (newId : Nat) :
    Except TenantError (Utility × Domain) × DB :=
  match _generate_schema_name (db.utilities.map (fun u => u.schema_name)) name with
  | none => (.error .creationError, db)
  | some schema =>
    if db.domains.any (fun d => d.domain == domain_name) then
      (.error .creationError, db)
    else
      let u : Utility :=
        { id := newId, name := name, schema_name := schema,
          is_active := true, is_deleted := false, deleted_on := none }
      let d : Domain :=
        { domain := domain_name, tenant := newId,
          is_primary := is_primary, is_active := true }
      (.ok (u, d),
       { utilities := db.utilities ++ [u],
         domains := db.domains ++ [d],
         schemas := db.schemas ++ [schema] })

/-- Model of `soft_delete_tenant(utility_id, confirm_name)`: check the
name confirmation (skipped for `None`/empty), refuse if already deleted,
otherwise set `is_deleted`, clear `is_active`, stamp `deleted_on`, and
deactivate all of the tenant's domains.  The domains and the schema are
kept. -/
def soft_delete_tenant (db : DB) (utility_id : Nat)
    (confirm_name : Option String) (now : Nat) :
    Except TenantError Utility × DB :=
  match getUtility db utility_id with
  | none => (.error .notFound, db)
  | some utility =>
    if confirmMismatch confirm_name utility.name then
      (.error .confirmMismatchErr, db)
    else if utility.is_deleted then
      (.error .alreadyDeleted, db)
    else
      let u := { utility with is_deleted := true, is_active := false,
                              deleted_on := some now }
      let db1 := putUtility db u
      (.ok u,
       { db1 with domains := db1.domains.map (fun d =>
           if d.tenant == utility_id then { d with is_active := false } else d) })

/-- Activate the first domain row matching
`utility.domains.filter(is_primary=True).first()` — the row object that
`restore_tenant` saves with `update_fields=['is_active']`.  When no
primary domain exists the list is unchanged. -/
def activateFirstPrimary (tid : Nat) : List Domain → List Domain
  | [] => []
  | d :: ds =>
    if d.tenant == tid && d.is_primary then { d with is_active := true } :: ds
    else d :: activateFirstPrimary tid ds

/-- Model of `restore_tenant(utility_id)`: refuse when not deleted,
otherwise clear the deletion flags and reactivate only the tenant's
primary domain (if any). -/
def restore_tenant (db : DB) (utility_id : Nat) :
    Except TenantError Utility × DB :=
  match getUtility db utility_id with
  | none => (.error .notFound, db)
  | some utility =>
    if !utility.is_deleted then (.error .notDeleted, db)
    else
      let u := { utility with is_deleted := false, is_active := true,
                              deleted_on := none }
      let db1 := putUtility db u
      (.ok u, { db1 with domains := activateFirstPrimary utility_id db1.domains })

/-- Model of `permanently_delete_tenant(utility_id, confirm_name)`: name
confirmation as in soft delete, refuse unless the tenant is
soft-deleted, then inside `transaction.atomic` drop the schema and
delete the tenant row (domain rows cascade). -/
def permanently_delete_tenant (db : DB) (utility_id : Nat)
    (confirm_name : Option String) : Except TenantError Bool × DB :=
  match getUtility db utility_id with
  | none => (.error .notFound, db)
  | some utility =>
    if confirmMismatch confirm_name utility.name then
      (.error .confirmMismatchErr, db)
    else if !utility.is_deleted then
      (.error .notSoftDeleted, db)
    else
      (.ok true,
       { utilities := db.utilities.filter (fun u => !(u.id == utility_id)),
         domains := db.domains.filter (fun d => !(d.tenant == utility_id)),
         schemas := db.schemas.filter (fun s => !(s == utility.schema_name)) })

/-- Model of `add_domain_to_tenant(utility_id, domain_name, is_primary)`.
The function body is not wrapped in `transaction.atomic`, so the
`update(is_primary=False)` on the tenant's existing primary domains
commits before `Domain.objects.create` runs; when the create then fails
on the global unique constraint over `Domain.domain` (surfacing as a
`ValidationError`, the spec's `DuplicateDomain`), the cleared flags are
left behind — the error-path state below is therefore the cleared one,
not the input. -/
def add_domain_to_tenant (db : DB) (utility_id : Nat) (domain_name : String)
    (is_primary : Bool) : Except TenantError Domain × DB :=
  match getUtility db utility_id with
  | none => (.error .notFound, db)
  | some _utility =>
    let db1 :=
      if is_primary then
        { db with domains := db.domains.map (fun d =>
            if d.tenant == utility_id && d.is_primary then
              { d with is_primary := false }
            else d) }
      else db
    if db1.domains.any (fun d => d.domain == domain_name) then
      (.error .duplicateDomain, db1)
    else
      let d : Domain :=
        { domain := domain_name, tenant := utility_id,
          is_primary := is_primary, is_active := true }
      (.ok d, { db1 with domains := db1.domains ++ [d] })

/-- Model of `toggle_tenant_status(utility_id, is_active)`: flip the flag
when no explicit value is given (`is_active is None`), else set it.  The
function checks existence only — not the deleted flag. -/
def toggle_tenant_status (db : DB) (utility_id : Nat)
    (is_active : Option Bool) : Except TenantError Utility × DB :=
  match getUtility db utility_id with
  | none => (.error .notFound, db)
  | some utility =>
    let newActive := match is_active with
      | none => !utility.is_active
      | some b => b
    let u := { utility with is_active := newActive }
    (.ok u, putUtility db u)

/-- Model of `list_tenants(active_only, include_deleted)`: order the
tenant table by name, drop soft-deleted rows unless `include_deleted`,
drop inactive rows when `active_only`.  A pure read: the database state
is not an output. -/
def list_tenants (db : DB) (active_only : Bool) (include_deleted : Bool) :
    List Utility :=
  let qs := db.utilities.mergeSort (fun a b => a.name ≤ b.name)
  let qs := if !include_deleted then qs.filter (fun u => !u.is_deleted) else qs
  if active_only then qs.filter (fun u => u.is_active) else qs

/-- Fields of the dictionary returned by `get_tenant_info`. -/
structure TenantInfo where
  id : Nat
  name : String
  schema_name : String
  is_active : Bool
  is_deleted : Bool
  deleted_on : Option Nat
  domains : List Domain
deriving DecidableEq, Repr

/-- Model of `get_tenant_info(utility_id)`: a pure read of the tenant row
and its domains; `Utility.DoesNotExist` becomes `notFound`. -/
def get_tenant_info (db : DB) (utility_id : Nat) :
    Except TenantError TenantInfo :=
  match getUtility db utility_id with
  | none => .error .notFound
  | some u =>
    .ok { id := u.id, name := u.name, schema_name := u.schema_name,
          is_active := u.is_active, is_deleted := u.is_deleted,
          deleted_on := u.deleted_on,
          domains := db.domains.filter (fun d => d.tenant == utility_id) }

/-- State invariant of a tenant row, from the spec's data model:
`is_deleted` forces `is_active = false` and a set `deleted_on`, and a
live row has no `deleted_on`. -/
def tenantInvariant (u : Utility) : Prop :=
  (u.is_deleted = true → u.is_active = false ∧ u.deleted_on ≠ none) ∧
  (u.is_deleted = false → u.deleted_on = none)

/-- The state invariant, over every tenant row of a database state. -/
def dbInvariant (db : DB) : Prop :=
  ∀ u ∈ db.utilities, tenantInvariant u

/-- Number of primary domain rows a tenant owns. -/
def primaryCount (db : DB) (tid : Nat) : Nat :=
  (db.domains.filter (fun d => d.tenant == tid && d.is_primary)).length

/-- Concrete control-plane state used to instantiate the theorems below:
tenant 1 is `ACTIVE` with one primary domain, tenant 2 is `SOFT_DELETED`
with one (deactivated) primary domain. -/
def sampleDB : DB :=
  ⟨[⟨1, ("Nairobi Water"), ("nairobi_water"), true, false, none⟩,
    ⟨2, ("Acme"), ("acme"), false, true, some 3⟩],
   [⟨("nairobi.example.com"), 1, true, true⟩,
    ⟨("acme.example.com"), 2, true, false⟩],
   [("nairobi_water"), ("acme")]⟩

instance (u : Utility) : Decidable (tenantInvariant u) :=
  inferInstanceAs (Decidable
    ((u.is_deleted = true → u.is_active = false ∧ u.deleted_on ≠ none) ∧
     (u.is_deleted = false → u.deleted_on = none)))

instance (db : DB) : Decidable (dbInvariant db) :=
  inferInstanceAs (Decidable (∀ u ∈ db.utilities, tenantInvariant u))

/-- Replacing the row that `find?` located (the one whose primary key
matches) makes a subsequent lookup of that key return the replacement. -/
lemma find?_put_same (l : List Utility) (id : Nat) (u0 u' : Utility)
    (h : l.find? (fun v => v.id == id) = some u0) (hid : u'.id = id) :
    (l.map (fun v => if v.id == u'.id then u' else v)).find?
      (fun v => v.id == id) = some u' := by
  subst hid
  induction l with
  | nil => simp at h
  | cons v vs ih =>
    cases hbv : (v.id == u'.id) with
    | true =>
      have h1 : (v :: vs).map (fun w => if w.id == u'.id then u' else w) =
          u' :: vs.map (fun w => if w.id == u'.id then u' else w) := by
        simp only [List.map_cons]
        rw [if_pos hbv]
      rw [h1, List.find?_cons_of_pos _ (by simp)]
    | false =>
      have h1 : (v :: vs).map (fun w => if w.id == u'.id then u' else w) =
          v :: vs.map (fun w => if w.id == u'.id then u' else w) := by
        simp only [List.map_cons]
        rw [if_neg (ne_true_of_eq_false hbv)]
      rw [List.find?_cons_of_neg _ (by simp [hbv])] at h
      rw [h1, List.find?_cons_of_neg _ (by simp [hbv])]
      exact ih h

/-- Replacing the row with primary key `id` leaves lookups of any other
key unchanged. -/
lemma find?_put_other (l : List Utility) (id tid : Nat) (u' : Utility)
    (hid : u'.id = id) (hne : tid ≠ id) :
    (l.map (fun v => if v.id == u'.id then u' else v)).find?
      (fun v => v.id == tid) = l.find? (fun v => v.id == tid) := by
  subst hid
  induction l with
  | nil => simp
  | cons v vs ih =>
    cases hbv : (v.id == u'.id) with
    | true =>
      have hv : v.id = u'.id := eq_of_beq hbv
      have h1 : (v :: vs).map (fun w => if w.id == u'.id then u' else w) =
          u' :: vs.map (fun w => if w.id == u'.id then u' else w) := by
        simp only [List.map_cons]
        rw [if_pos hbv]
      rw [h1, List.find?_cons_of_neg _ (by simp [Ne.symm hne]),
          List.find?_cons_of_neg _ (by rw [hv]; simp [Ne.symm hne])]
      exact ih
    | false =>
      have h1 : (v :: vs).map (fun w => if w.id == u'.id then u' else w) =
          v :: vs.map (fun w => if w.id == u'.id then u' else w) := by
        simp only [List.map_cons]
        rw [if_neg (ne_true_of_eq_false hbv)]
      rw [h1]
      cases hvt : (v.id == tid) with
      | true =>
        rw [List.find?_cons_of_pos _ (by simp [hvt]),
            List.find?_cons_of_pos _ (by simp [hvt])]
      | false =>
        rw [List.find?_cons_of_neg _ (by simp [hvt]),
            List.find?_cons_of_neg _ (by simp [hvt])]
        exact ih

/-- Unfolded form of the success path of `soft_delete_tenant`. -/
lemma soft_delete_ok (db : DB) (id : Nat) (c : Option String) (now : Nat)
    (u : Utility) (hu : getUtility db id = some u)
    (hc : confirmMismatch c u.name = false) (hnd : u.is_deleted = false) :
    soft_delete_tenant db id c now =
      (.ok { u with is_deleted := true, is_active := false, deleted_on := some now },
       { utilities := db.utilities.map (fun v =>
           if v.id == u.id then
             { u with is_deleted := true, is_active := false, deleted_on := some now }
           else v),
         domains := db.domains.map (fun d =>
           if d.tenant == id then { d with is_active := false } else d),
         schemas := db.schemas }) := by
  simp only [soft_delete_tenant, hu, hc, Bool.false_eq_true, if_false, hnd,
    putUtility]

/-- Unfolded form of the success path of `restore_tenant`. -/
lemma restore_ok (db : DB) (id : Nat) (u : Utility)
    (hu : getUtility db id = some u) (hd : u.is_deleted = true) :
    restore_tenant db id =
      (.ok { u with is_deleted := false, is_active := true, deleted_on := none },
       { utilities := db.utilities.map (fun v =>
           if v.id == u.id then
             { u with is_deleted := false, is_active := true, deleted_on := none }
           else v),
         domains := activateFirstPrimary id db.domains,
         schemas := db.schemas }) := by
  simp only [restore_tenant, hu, hd, Bool.not_true, Bool.false_eq_true, if_false,
    putUtility]

/-- Unfolded form of the success path of `permanently_delete_tenant`. -/
lemma permanently_delete_ok (db : DB) (id : Nat) (c : Option String)
    (u : Utility) (hu : getUtility db id = some u)
    (hc : confirmMismatch c u.name = false) (hd : u.is_deleted = true) :
    permanently_delete_tenant db id c =
      (.ok true,
       { utilities := db.utilities.filter (fun v => !(v.id == id)),
         domains := db.domains.filter (fun d => !(d.tenant == id)),
         schemas := db.schemas.filter (fun s => !(s == u.schema_name)) }) := by
  simp only [permanently_delete_tenant, hu, hc, Bool.false_eq_true, if_false,
    hd, Bool.not_true]

/-- Result shape of `toggle_tenant_status` on an existing tenant. -/
lemma toggle_result (db : DB) (id : Nat) (b : Option Bool) (u : Utility)
    (hu : getUtility db id = some u) :
    ∃ nb, toggle_tenant_status db id b =
      (.ok { u with is_active := nb }, putUtility db { u with is_active := nb }) := by
  refine ⟨match b with | none => !u.is_active | some x => x, ?_⟩
  simp only [toggle_tenant_status, hu]

/-- Replacing one row by a row satisfying the tenant invariant preserves
the invariant of the whole table. -/
lemma invariant_mapPut (l : List Utility) (u' : Utility)
    (hl : ∀ v ∈ l, tenantInvariant v) (hu' : tenantInvariant u') :
    ∀ v ∈ l.map (fun w => if w.id == u'.id then u' else w), tenantInvariant v := by
  intro v hv
  rcases List.mem_map.mp hv with ⟨w, hw, hmap⟩
  by_cases hb : (w.id == u'.id) = true
  · rw [← hmap, if_pos hb]
    exact hu'
  · rw [← hmap, if_neg hb]
    exact hl w hw

/-- Correctness of the fuel-driven digit computation. -/
lemma natDigitsAux_val : ∀ fuel n, n < fuel →
    digitsVal (natDigitsAux fuel n) = n := by
  intro fuel
  induction fuel with
  | zero => intro n h; omega
  | succ fuel ih =>
    intro n h
    by_cases h10 : n < 10
    · simp only [natDigitsAux, if_pos h10, digitsVal, List.foldl_cons,
        List.foldl_nil]
      interval_cases n <;> decide
    · have hm : n % 10 < 10 := Nat.mod_lt _ (by omega)
      have hd : n / 10 < fuel := by
        have hlt : n / 10 < n := Nat.div_lt_self (by omega) (by omega)
        omega
      have hdig : (Char.ofNat (48 + n % 10)).toNat - 48 = n % 10 := by
        set m := n % 10 with hmm
        interval_cases m <;> decide
      simp only [natDigitsAux, if_neg h10, digitsVal, List.foldl_append,
        List.foldl_cons, List.foldl_nil]
      have iv := ih (n / 10) hd
      simp only [digitsVal] at iv
      rw [iv, hdig]
      omega

/-- Decimal printing is injective. -/
lemma natDigits_inj {a b : Nat} (h : natDigits a = natDigits b) : a = b := by
  have ha := natDigitsAux_val (a + 1) a (by omega)
  have hb := natDigitsAux_val (b + 1) b (by omega)
  simp only [natDigits] at h
  rw [h] at ha
  omega

/-- Every character printed for a counter is in the schema charset. -/
lemma natDigitsAux_schemaChar : ∀ fuel n, ∀ c ∈ natDigitsAux fuel n,
    isSchemaChar c = true := by
  intro fuel
  induction fuel with
  | zero => intro n c hc; simp [natDigitsAux] at hc
  | succ fuel ih =>
    intro n c hc
    by_cases h10 : n < 10
    · simp only [natDigitsAux, if_pos h10, List.mem_singleton] at hc
      subst hc
      interval_cases n <;> decide
    · simp only [natDigitsAux, if_neg h10, List.mem_append,
        List.mem_singleton] at hc
      rcases hc with hc | hc
      · exact ih _ _ hc
      · subst hc
        have hm : n % 10 < 10 := Nat.mod_lt _ (by omega)
        set m := n % 10 with hmm
        interval_cases m <;> decide

/-- Spelled-out character list of the `f"{base}_{counter}"` candidate. -/
lemma candidate_data (base : String) (k : Nat) :
    (candidate base k).data = base.data ++ ('_') :: natDigits k := by
  simp [candidate, String.data_append]

/-- The candidate strings for distinct counters are distinct. -/
lemma candidate_inj {base : String} {a b : Nat}
    (h : candidate base a = candidate base b) : a = b := by
  have hd : (candidate base a).data = (candidate base b).data := by rw [h]
  rw [candidate_data, candidate_data] at hd
  have h2 := List.append_cancel_left hd
  exact natDigits_inj (by injection h2)

/-- Pigeonhole step for the uniqueness loop: among any
`existing.length + 1` consecutive counters, at least one candidate is
not an existing schema name. -/
lemma exists_free_candidate (existing : List String) (base : String)
    (counter : Nat) :
    ∃ k, counter ≤ k ∧ k < counter + (existing.length + 1) ∧
      candidate base k ∉ existing := by
  by_contra hall
  push_neg at hall
  have hmaps : ∀ i ∈ Finset.range (existing.length + 1),
      candidate base (counter + i) ∈ existing.toFinset := by
    intro i hi
    rw [List.mem_toFinset]
    exact hall _ (by omega) (by simp only [Finset.mem_range] at hi; omega)
  have hinj : Set.InjOn (fun i => candidate base (counter + i))
      ↑(Finset.range (existing.length + 1)) := by
    intro i _ j _ hij
    have := candidate_inj hij
    omega
  have hcard := Finset.card_le_card_of_injOn _ hmaps hinj
  rw [Finset.card_range] at hcard
  have hle := existing.toFinset_card_le
  omega

/-- The uniqueness loop returns a name not in `existing`, provided the
fuel window contains a free candidate (or the current name is free). -/
lemma schemaLoop_not_mem (existing : List String) (base : String) :
    ∀ (fuel counter : Nat) (current : String),
      (current ∉ existing ∨
        ∃ k, counter ≤ k ∧ k < counter + fuel ∧ candidate base k ∉ existing) →
      schemaLoop existing base fuel counter current ∉ existing := by
  intro fuel
  induction fuel with
  | zero =>
    intro counter current h
    rcases h with h | ⟨k, hk1, hk2, _⟩
    · simpa [schemaLoop] using h
    · omega
  | succ fuel ih =>
    intro counter current h
    by_cases hc : current ∈ existing
    · rw [schemaLoop, if_pos hc]
      apply ih
      rcases h with h | ⟨k, hk1, hk2, hk3⟩
      · exact absurd hc h
      · by_cases hkc : k = counter
        · left
          rw [← hkc]
          exact hk3
        · right
          exact ⟨k, by omega, by omega, hk3⟩
    · rw [schemaLoop, if_neg hc]
      exact hc

/-- The uniqueness loop only ever returns the base name or a suffixed
candidate with counter at least the starting one. -/
lemma schemaLoop_shape (existing : List String) (base : String) :
    ∀ (fuel counter : Nat) (current : String),
      schemaLoop existing base fuel counter current = current ∨
        ∃ k, counter ≤ k ∧
          schemaLoop existing base fuel counter current = candidate base k := by
  intro fuel
  induction fuel with
  | zero => intro counter current; left; rfl
  | succ fuel ih =>
    intro counter current
    by_cases hc : current ∈ existing
    · rw [schemaLoop, if_pos hc]
      rcases ih (counter + 1) (candidate base counter) with h | ⟨k, hk, h⟩
      · right
        exact ⟨counter, le_refl _, h⟩
      · right
        exact ⟨k, by omega, h⟩
    · left
      rw [schemaLoop, if_neg hc]

/-- Clearing the primary flag on a tenant's domains leaves the tenant
with no primary domain rows. -/
lemma clear_primaries_filter (tid : Nat) (l : List Domain) :
    (l.map (fun d => if d.tenant == tid && d.is_primary then
        { d with is_primary := false } else d)).filter
      (fun d => d.tenant == tid && d.is_primary) = [] := by
  induction l with
  | nil => rfl
  | cons d ds ih =>
    cases hbd : (d.tenant == tid && d.is_primary) with
    | true =>
      have h1 : (d.tenant == tid) = true := by
        cases h2 : (d.tenant == tid) <;> simp [h2] at hbd ⊢
      simp only [List.map_cons, if_pos hbd, List.filter_cons]
      simpa [h1] using ih
    | false =>
      simp only [List.map_cons, if_neg (ne_true_of_eq_false hbd), List.filter_cons]
      simpa [hbd] using ih

/-- The clearing pass keeps every hostname, so the duplicate check after
it sees the same hostnames as before. -/
lemma clear_primaries_any (tid : Nat) (l : List Domain) (dn : String) :
    (l.map (fun d => if d.tenant == tid && d.is_primary then
        { d with is_primary := false } else d)).any
      (fun d => d.domain == dn) = l.any (fun d => d.domain == dn) := by
  induction l with
  | nil => rfl
  | cons d ds ih =>
    cases hbd : (d.tenant == tid && d.is_primary) with
    | true => simp only [List.map_cons, if_pos hbd, List.any_cons, ih]
    | false => simp only [List.map_cons, if_neg (ne_true_of_eq_false hbd), List.any_cons, ih]

/-- Deactivating a tenant's domains does not change which of its rows
are primary. -/
lemma deactivate_filter_primary (tid : Nat) (l : List Domain) :
    ((l.map (fun d => if d.tenant == tid then { d with is_active := false }
        else d)).filter (fun d => d.tenant == tid && d.is_primary)).length =
      (l.filter (fun d => d.tenant == tid && d.is_primary)).length := by
  induction l with
  | nil => rfl
  | cons d ds ih =>
    cases hbt : (d.tenant == tid) with
    | true =>
      simp only [List.map_cons, if_pos hbt, List.filter_cons]
      cases hbp : d.is_primary with
      | true => simpa [hbt, hbp] using ih
      | false => simpa [hbt, hbp] using ih
    | false =>
      simp only [List.map_cons, if_neg (ne_true_of_eq_false hbt), List.filter_cons]
      simpa [hbt] using ih

/-- After soft delete, every domain row of the tenant is inactive. -/
lemma deactivate_all_inactive (tid : Nat) (l : List Domain) :
    ∀ d ∈ l.map (fun d => if d.tenant == tid then { d with is_active := false }
        else d), d.tenant = tid → d.is_active = false := by
  intro d hd htid
  rcases List.mem_map.mp hd with ⟨d0, _, hmap⟩
  by_cases hb : d0.tenant = tid
  · rw [← hmap, if_pos (by simp [hb])]
  · rw [← hmap, if_neg (by simp [hb])] at htid ⊢
    exact absurd htid hb

/-- Reactivating the first primary row: when the tenant owns at most one
primary domain and all its rows are inactive, afterwards its primary
rows are exactly the active ones. -/
lemma activateFirstPrimary_spec (tid : Nat) :
    ∀ l : List Domain,
      (l.filter (fun d => d.tenant == tid && d.is_primary)).length ≤ 1 →
      (∀ d ∈ l, d.tenant = tid → d.is_active = false) →
      ∀ d ∈ activateFirstPrimary tid l, d.tenant = tid →
        (d.is_primary = true → d.is_active = true) ∧
        (d.is_primary = false → d.is_active = false) := by
  intro l
  induction l with
  | nil => intro _ _ d hd; simp [activateFirstPrimary] at hd
  | cons v vs ih =>
    intro hcount hinact d hd htid
    cases hbv : (v.tenant == tid && v.is_primary) with
    | true =>
      rw [activateFirstPrimary, if_pos hbv] at hd
      have hvp : v.is_primary = true := by
        cases h2 : v.is_primary <;> simp [h2] at hbv ⊢
      rcases List.mem_cons.mp hd with hd | hd
      · subst hd
        exact ⟨fun _ => rfl, fun hp => by simp [hvp] at hp⟩
      · have hfc : (List.filter (fun d => d.tenant == tid && d.is_primary)
            (v :: vs)) = v :: List.filter (fun d => d.tenant == tid && d.is_primary) vs := by
          simp [List.filter_cons, hbv]
        rw [hfc] at hcount
        have hnil : List.filter (fun d => d.tenant == tid && d.is_primary) vs = [] := by
          have : (List.filter (fun d => d.tenant == tid && d.is_primary) vs).length = 0 := by
            simp only [List.length_cons] at hcount
            omega
          exact List.eq_nil_of_length_eq_zero this
        have hdp : d.is_primary = false := by
          by_contra hdp
          have hdp' : d.is_primary = true := by
            cases h2 : d.is_primary
            · exact absurd h2 hdp
            · rfl
          have : d ∈ List.filter (fun d => d.tenant == tid && d.is_primary) vs :=
            List.mem_filter.mpr ⟨hd, by simp [htid, hdp']⟩
          rw [hnil] at this
          exact absurd this (List.not_mem_nil d)
        refine ⟨fun hp => by rw [hdp] at hp; exact absurd hp (by simp), fun _ => ?_⟩
        exact hinact d (List.mem_cons_of_mem v hd) htid
    | false =>
      rw [activateFirstPrimary, if_neg (ne_true_of_eq_false hbv)] at hd
      rcases List.mem_cons.mp hd with hd | hd
      · subst hd
        have hdp : d.is_primary = false := by
          cases h2 : d.is_primary
          · rfl
          · simp [htid, h2] at hbv
        refine ⟨fun hp => by rw [hdp] at hp; exact absurd hp (by simp), fun _ => ?_⟩
        exact hinact d (List.mem_cons_self d vs) htid
      · have hfc : (List.filter (fun d => d.tenant == tid && d.is_primary)
            (v :: vs)) = List.filter (fun d => d.tenant == tid && d.is_primary) vs := by
          simp [List.filter_cons, hbv]
        rw [hfc] at hcount
        exact ih hcount (fun e he => hinact e (List.mem_cons_of_mem v he)) d hd htid

/-- Every character surviving normalization is in the schema charset. -/
lemma normalize_chars (name : String) :
    ∀ c ∈ (normalizeName name).data, isSchemaChar c = true := by
  intro c hc
  simp only [normalizeName] at hc
  exact (List.mem_filter.mp hc).2

/-- Character list of the namespace token prefix. -/
lemma tenant_prefix_data :
    ("tenant_").data = [('t'), ('e'), ('n'), ('a'), ('n'), ('t'), ('_')] := by
  decide

/-- The name ordering used by `list_tenants` sorts the table. -/
lemma pairwise_name_mergeSort (l : List Utility) :
    List.Pairwise (fun a b : Utility => a.name ≤ b.name)
      (l.mergeSort (fun a b => a.name ≤ b.name)) := by
  have h := @List.sorted_mergeSort Utility (fun a b => decide (a.name ≤ b.name))
    (fun a b c hab hbc => by
      simp only [decide_eq_true_eq] at hab hbc ⊢
      exact le_trans hab hbc)
    (fun a b => by
      simp only [Bool.or_eq_true, decide_eq_true_eq]
      exact le_total a.name b.name) l
  refine h.imp ?_
  intro a b hab
  simpa using hab

/-- Replacing one row by a row with the same key and schema name leaves
every tenant's stored schema name unchanged. -/
lemma find?_schema_preserved (l : List Utility) (id tid : Nat) (u u' : Utility)
    (hu : l.find? (fun v => v.id == id) = some u) (hid : u'.id = u.id)
    (hs : u'.schema_name = u.schema_name) :
    ((l.map (fun v => if v.id == u'.id then u' else v)).find?
        (fun v => v.id == tid)).map (fun v => v.schema_name) =
      (l.find? (fun v => v.id == tid)).map (fun v => v.schema_name) := by
  have hp : (u.id == id) = true := by
    have h2 := List.find?_some hu
    simpa using h2
  have hukey : u.id = id := eq_of_beq hp
  by_cases htid : tid = id
  · subst htid
    rw [find?_put_same l tid u u' hu (hid.trans hukey), hu]
    simp [hs]
  · rw [find?_put_other l id tid u' (hid.trans hukey) htid]

/-- In every branch, `add_domain_to_tenant` leaves the tenant table
itself untouched (it only rewrites domain rows). -/
lemma add_domain_utilities (db : DB) (id : Nat) (dn : String) (ip : Bool) :
    (add_domain_to_tenant db id dn ip).2.utilities = db.utilities := by
  cases hu : getUtility db id with
  | none => simp [add_domain_to_tenant, hu]
  | some u =>
    simp only [add_domain_to_tenant, hu]
    cases ip with
    | true => split <;> split <;> rfl
    | false => split <;> split <;> rfl

/-- C2: the spec explicitly requires that a name normalizing to the
empty string still yields a valid non-empty identifier; the code instead
reaches `schema_name[0]` on the empty candidate and faults with
`IndexError` (modelled as `none`), which `create_tenant` surfaces as a
generic creation failure. -/
theorem C2_empty_normalization_faults :
    normalizeName ("!!!") = ("") ∧
    _generate_schema_name [] ("!!!") = none ∧
    (create_tenant ⟨[], [], []⟩ ("!!!") ("water.example.com") true 1).1 =
      .error .creationError := by
  refine ⟨by decide, by decide, rfl⟩

/-- C1 (counterexample): the state invariant holds of `sampleDB`, yet
`toggle_tenant_status` on the soft-deleted tenant 2 returns a row with
`is_deleted = true` and `is_active = true`, and the invariant fails in
the post-state — the claim that every lifecycle operation preserves the
invariant is false for `toggle_tenant_status` on a `SOFT_DELETED`
tenant. -/
theorem C1_counterexample :
    dbInvariant sampleDB ∧
    (toggle_tenant_status sampleDB 2 none).1 =
      .ok ⟨2, ("Acme"), ("acme"), true, true, some 3⟩ ∧
    ¬ dbInvariant (toggle_tenant_status sampleDB 2 none).2 := by
  refine ⟨by decide, rfl, by decide⟩

/-- C1 (amended): the state invariant (`is_deleted` forces inactive and
a set `deleted_on`; live rows have no `deleted_on`) is preserved by
`create_tenant`, `soft_delete_tenant`, `restore_tenant` and
`add_domain_to_tenant` unconditionally, and by `toggle_tenant_status`
whenever the targeted tenant is not soft-deleted; the code does not
guard `toggle_tenant_status` against soft-deleted tenants. -/
theorem C1_state_invariant_preserved (db : DB) (hdb : dbInvariant db) :
    (∀ name domain_name ip newId,
       dbInvariant (create_tenant db name domain_name ip newId).2) ∧
    (∀ id c now, dbInvariant (soft_delete_tenant db id c now).2) ∧
    (∀ id, dbInvariant (restore_tenant db id).2) ∧
    (∀ id domain_name ip,
       dbInvariant (add_domain_to_tenant db id domain_name ip).2) ∧
    (∀ id b u, getUtility db id = some u → u.is_deleted = false →
       dbInvariant (toggle_tenant_status db id b).2) := by
  refine ⟨?_, ?_, ?_, ?_, ?_⟩
  · intro name domain_name ip newId
    cases hgen : _generate_schema_name
        (db.utilities.map (fun u => u.schema_name)) name with
    | none => simpa [create_tenant, hgen] using hdb
    | some schema =>
      by_cases hdup : db.domains.any (fun d => d.domain == domain_name) = true
      · simpa [create_tenant, hgen, hdup] using hdb
      · simp only [create_tenant, hgen, if_neg hdup]
        intro v hv
        rcases List.mem_append.mp hv with h | h
        · exact hdb v h
        · rw [List.mem_singleton] at h
          subst h
          exact ⟨fun habs => Bool.noConfusion habs, fun _ => rfl⟩
  · intro id c now
    cases hu : getUtility db id with
    | none => simpa [soft_delete_tenant, hu] using hdb
    | some u =>
      cases hc : confirmMismatch c u.name with
      | true => simpa [soft_delete_tenant, hu, hc] using hdb
      | false =>
        cases hd : u.is_deleted with
        | true => simpa [soft_delete_tenant, hu, hc, hd] using hdb
        | false =>
          rw [soft_delete_ok db id c now u hu hc hd]
          intro v hv
          exact invariant_mapPut db.utilities
            { u with is_deleted := true, is_active := false, deleted_on := some now }
            hdb ⟨fun _ => ⟨rfl, fun habs => Option.noConfusion habs⟩,
                 fun habs => Bool.noConfusion habs⟩ v hv
  · intro id
    cases hu : getUtility db id with
    | none => simpa [restore_tenant, hu] using hdb
    | some u =>
      cases hd : u.is_deleted with
      | false => simpa [restore_tenant, hu, hd] using hdb
      | true =>
        rw [restore_ok db id u hu hd]
        intro v hv
        exact invariant_mapPut db.utilities
          { u with is_deleted := false, is_active := true, deleted_on := none }
          hdb ⟨fun habs => Bool.noConfusion habs, fun _ => rfl⟩ v hv
  · intro id domain_name ip
    intro v hv
    rw [add_domain_utilities db id domain_name ip] at hv
    exact hdb v hv
  · intro id b u hu hnd
    obtain ⟨nb, heq⟩ := toggle_result db id b u hu
    rw [heq]
    have hm : u ∈ db.utilities := List.mem_of_find?_eq_some hu
    have hinv : tenantInvariant { u with is_active := nb } := by
      constructor
      · intro habs
        have h2 : u.is_deleted = true := habs
        rw [hnd] at h2
        exact Bool.noConfusion h2
      · intro _
        exact (hdb u hm).2 hnd
    intro v hv
    exact invariant_mapPut db.utilities { u with is_active := nb } hdb hinv v hv

/-- C1 (witness): the amended preservation theorem applied to the
concrete state. -/
theorem C1_state_invariant_preserved_witness :
    dbInvariant (soft_delete_tenant sampleDB 1 none 7).2 ∧
    dbInvariant (toggle_tenant_status sampleDB 1 (some false)).2 := by
  constructor
  · exact (C1_state_invariant_preserved sampleDB (by decide)).2.1 1 none 7
  · exact (C1_state_invariant_preserved sampleDB (by decide)).2.2.2.2 1 (some false)
      ⟨1, ("Nairobi Water"), ("nairobi_water"), true, false, none⟩ (by decide) rfl

/-- C3 (counterexample): tenant 1 starts with exactly one primary
domain; `add_domain_to_tenant` with `is_primary=True` and an already
taken hostname fails with the duplicate error, yet the observable
post-state has zero primary domains for tenant 1 — the clearing pass
committed before the failed creation, so the operation is not one atomic
unit. -/
theorem C3_counterexample :
    primaryCount sampleDB 1 = 1 ∧
    (add_domain_to_tenant sampleDB 1 ("acme.example.com") true).1 =
      .error .duplicateDomain ∧
    primaryCount (add_domain_to_tenant sampleDB 1 ("acme.example.com") true).2 1 = 0 := by
  refine ⟨by decide, rfl, by decide⟩

/-- Unfolded form of `add_domain_to_tenant` with `is_primary=True` on an
existing tenant: the clearing pass is visible in both branch states. -/
lemma add_domain_primary_unfold (db : DB) (id : Nat) (dn : String) (u : Utility)
    (hu : getUtility db id = some u) :
    add_domain_to_tenant db id dn true =
      (if (db.domains.map (fun d =>
            if d.tenant == id && d.is_primary then { d with is_primary := false }
            else d)).any (fun d => d.domain == dn) then
         (.error .duplicateDomain,
          { db with domains := db.domains.map (fun d =>
              if d.tenant == id && d.is_primary then { d with is_primary := false }
              else d) })
       else
         (.ok ⟨dn, id, true, true⟩,
          { db with domains := (db.domains.map (fun d =>
              if d.tenant == id && d.is_primary then { d with is_primary := false }
              else d)) ++ [⟨dn, id, true, true⟩] })) := by
  simp only [add_domain_to_tenant, hu, if_true]

/-- C3 (amended): `add_domain_to_tenant` fails with the duplicate-domain
error when the hostname exists for any tenant; with `is_primary=True`
the clearing of the tenant's other primary flags commits before the
creation, so a successful call leaves exactly one primary domain, but a
failed creation leaves the tenant with zero primary domains. -/
theorem C3_add_domain (db : DB) (id : Nat) (dn : String) (u : Utility)
    (hu : getUtility db id = some u) :
    (db.domains.any (fun d => d.domain == dn) = true →
       (add_domain_to_tenant db id dn true).1 = .error .duplicateDomain ∧
       primaryCount (add_domain_to_tenant db id dn true).2 id = 0) ∧
    (db.domains.any (fun d => d.domain == dn) = false →
       (add_domain_to_tenant db id dn true).1 =
         .ok ⟨dn, id, true, true⟩ ∧
       primaryCount (add_domain_to_tenant db id dn true).2 id = 1) := by
  have hany := clear_primaries_any id db.domains dn
  constructor
  · intro hdup
    have hany2 : ((db.domains.map (fun d =>
        if d.tenant == id && d.is_primary then { d with is_primary := false }
        else d)).any (fun d => d.domain == dn)) = true := by
      rw [hany]
      exact hdup
    rw [add_domain_primary_unfold db id dn u hu, if_pos hany2]
    refine ⟨rfl, ?_⟩
    show ((db.domains.map (fun d : Domain =>
        if d.tenant == id && d.is_primary then { d with is_primary := false }
        else d)).filter (fun d : Domain => d.tenant == id && d.is_primary)).length = 0
    rw [clear_primaries_filter]
    rfl
  · intro hdup
    have hany2 : ((db.domains.map (fun d =>
        if d.tenant == id && d.is_primary then { d with is_primary := false }
        else d)).any (fun d => d.domain == dn)) = false := by
      rw [hany]
      exact hdup
    rw [add_domain_primary_unfold db id dn u hu, if_neg (ne_true_of_eq_false hany2)]
    refine ⟨rfl, ?_⟩
    show (((db.domains.map (fun d : Domain =>
        if d.tenant == id && d.is_primary then { d with is_primary := false }
        else d)) ++ ([⟨dn, id, true, true⟩] : List Domain)).filter
          (fun d : Domain => d.tenant == id && d.is_primary)).length = 1
    rw [List.filter_append, clear_primaries_filter, List.nil_append]
    simp

/-- C3 (witness): the amended theorem applied to the concrete state, on
both the failing and the succeeding branch. -/
theorem C3_add_domain_witness :
    ((add_domain_to_tenant sampleDB 1 ("acme.example.com") true).1 =
       .error .duplicateDomain ∧
     primaryCount (add_domain_to_tenant sampleDB 1 ("acme.example.com") true).2 1 = 0) ∧
    ((add_domain_to_tenant sampleDB 1 ("water.example.com") true).1 =
       .ok ⟨("water.example.com"), 1, true, true⟩ ∧
     primaryCount (add_domain_to_tenant sampleDB 1 ("water.example.com") true).2 1 = 1) := by
  constructor
  · exact (C3_add_domain sampleDB 1 ("acme.example.com")
      ⟨1, ("Nairobi Water"), ("nairobi_water"), true, false, none⟩
      (by decide)).1 (by decide)
  · exact (C3_add_domain sampleDB 1 ("water.example.com")
      ⟨1, ("Nairobi Water"), ("nairobi_water"), true, false, none⟩
      (by decide)).2 (by decide)

/-- C10: the confirmation guard `if confirm_name and confirm_name != name`
treats `None` and the empty string as falsy, so both bypass the check
entirely: soft delete and permanent delete then succeed (state
preconditions permitting) with no name match at all. -/
theorem C10_empty_confirmation_bypass (db : DB) (id : Nat) (u : Utility)
    (now : Nat) (hu : getUtility db id = some u) :
    (u.is_deleted = false →
       soft_delete_tenant db id (some ("")) now = soft_delete_tenant db id none now ∧
       (soft_delete_tenant db id none now).1 =
         .ok { u with is_deleted := true, is_active := false, deleted_on := some now }) ∧
    (u.is_deleted = true →
       permanently_delete_tenant db id (some ("")) =
         permanently_delete_tenant db id none ∧
       (permanently_delete_tenant db id none).1 = .ok true) := by
  have hc1 : confirmMismatch (some ("")) u.name = false := by
    simp [confirmMismatch]
  have hc2 : confirmMismatch none u.name = false := rfl
  constructor
  · intro hnd
    rw [soft_delete_ok db id (some ("")) now u hu hc1 hnd,
        soft_delete_ok db id none now u hu hc2 hnd]
    exact ⟨rfl, rfl⟩
  · intro hd
    rw [permanently_delete_ok db id (some ("")) u hu hc1 hd,
        permanently_delete_ok db id none u hu hc2 hd]
    exact ⟨rfl, rfl⟩

/-- C10 (witness): the bypass theorem applied to the concrete state:
tenant 1 (live, named `Nairobi Water`) is soft-deleted with an empty
confirmation, tenant 2 (soft-deleted) is purged with an empty
confirmation. -/
theorem C10_empty_confirmation_bypass_witness :
    (soft_delete_tenant sampleDB 1 (some ("")) 9 =
       soft_delete_tenant sampleDB 1 none 9) ∧
    (permanently_delete_tenant sampleDB 2 (some ("")) =
       permanently_delete_tenant sampleDB 2 none) := by
  constructor
  · exact ((C10_empty_confirmation_bypass sampleDB 1
      ⟨1, ("Nairobi Water"), ("nairobi_water"), true, false, none⟩ 9
      (by decide)).1 rfl).1
  · exact ((C10_empty_confirmation_bypass sampleDB 2
      ⟨2, ("Acme"), ("acme"), false, true, some 3⟩ 9
      (by decide)).2 rfl).1

/-- C4: on a live (`ACTIVE`/`INACTIVE`) tenant with a passing
confirmation, soft delete marks the row deleted, clears `is_active`,
stamps `deleted_on` with the current time, deactivates every domain of
the tenant, and deletes neither the domain rows (the hostnames are all
still present) nor the schema; a non-empty mismatching confirmation
fails with the confirmation error leaving the state unchanged, and a
tenant already soft-deleted fails with the already-deleted error. -/
theorem C4_soft_delete_spec (db : DB) (id : Nat) (c : Option String)
    (now : Nat) (u : Utility) (hu : getUtility db id = some u) :
    (confirmMismatch c u.name = false → u.is_deleted = false →
       (soft_delete_tenant db id c now).1 =
         .ok { u with is_deleted := true, is_active := false, deleted_on := some now } ∧
       getUtility (soft_delete_tenant db id c now).2 id =
         some { u with is_deleted := true, is_active := false, deleted_on := some now } ∧
       (∀ d ∈ (soft_delete_tenant db id c now).2.domains,
          d.tenant = id → d.is_active = false) ∧
       (soft_delete_tenant db id c now).2.domains.map (fun d => d.domain) =
         db.domains.map (fun d => d.domain) ∧
       (soft_delete_tenant db id c now).2.schemas = db.schemas) ∧
    (∀ s, c = some s → s ≠ ("") → s ≠ u.name →
       soft_delete_tenant db id c now = (.error .confirmMismatchErr, db)) ∧
    (confirmMismatch c u.name = false → u.is_deleted = true →
       soft_delete_tenant db id c now = (.error .alreadyDeleted, db)) := by
  refine ⟨?_, ?_, ?_⟩
  · intro hc hnd
    rw [soft_delete_ok db id c now u hu hc hnd]
    refine ⟨rfl, ?_, ?_, ?_, rfl⟩
    · have hukey : u.id = id := by
        have h2 := List.find?_some hu
        exact eq_of_beq (by simpa using h2)
      exact find?_put_same db.utilities id u
        { u with is_deleted := true, is_active := false, deleted_on := some now }
        hu hukey
    · exact deactivate_all_inactive id db.domains
    · rw [List.map_map]
      apply List.map_congr_left
      intro d _
      by_cases hb : (d.tenant == id) = true
      · rw [Function.comp_apply, if_pos hb]
      · rw [Function.comp_apply, if_neg hb]
  · intro s hcs hs1 hs2
    subst hcs
    have hc : confirmMismatch (some s) u.name = true := by
      simp [confirmMismatch, hs1, hs2]
    simp only [soft_delete_tenant, hu, hc, if_true]
  · intro hc hd
    simp only [soft_delete_tenant, hu, hc, Bool.false_eq_true, if_false, hd,
      if_true]

/-- C4 (witness): soft delete with the matching confirmation succeeds on
the concrete state and the mismatching confirmation is rejected
unchanged. -/
theorem C4_soft_delete_spec_witness :
    (soft_delete_tenant sampleDB 1 (some ("Nairobi Water")) 4).1 =
      .ok ⟨1, ("Nairobi Water"), ("nairobi_water"), false, true, some 4⟩ ∧
    soft_delete_tenant sampleDB 1 (some ("Wrong Name")) 4 =
      (.error .confirmMismatchErr, sampleDB) := by
  constructor
  · exact ((C4_soft_delete_spec sampleDB 1 (some ("Nairobi Water")) 4
      ⟨1, ("Nairobi Water"), ("nairobi_water"), true, false, none⟩
      (by decide)).1 (by decide) rfl).1
  · exact (C4_soft_delete_spec sampleDB 1 (some ("Wrong Name")) 4
      ⟨1, ("Nairobi Water"), ("nairobi_water"), true, false, none⟩
      (by decide)).2.1 ("Wrong Name") rfl (by decide) (by decide)

/-- C6: permanent deletion of a tenant that is not soft-deleted fails —
with the not-soft-deleted error whenever the confirmation passes — and
leaves the whole state (tenant row, domains, schema) untouched; on a
soft-deleted tenant with a passing confirmation it removes the tenant
row and all its domain rows, after which `get_tenant_info` reports the
tenant as not found. -/
theorem C6_permanent_delete_spec (db : DB) (id : Nat) (c : Option String)
    (u : Utility) (hu : getUtility db id = some u) :
    (u.is_deleted = false → (permanently_delete_tenant db id c).2 = db) ∧
    (u.is_deleted = false → confirmMismatch c u.name = false →
       (permanently_delete_tenant db id c).1 = .error .notSoftDeleted) ∧
    (u.is_deleted = true → confirmMismatch c u.name = false →
       (permanently_delete_tenant db id c).1 = .ok true ∧
       getUtility (permanently_delete_tenant db id c).2 id = none ∧
       (∀ d ∈ (permanently_delete_tenant db id c).2.domains, d.tenant ≠ id) ∧
       get_tenant_info (permanently_delete_tenant db id c).2 id =
         .error .notFound) := by
  refine ⟨?_, ?_, ?_⟩
  · intro hnd
    cases hc : confirmMismatch c u.name with
    | true => simp only [permanently_delete_tenant, hu, hc, if_true]
    | false =>
      simp only [permanently_delete_tenant, hu, hc, Bool.false_eq_true,
        if_false, hnd, Bool.not_false, if_true]
  · intro hnd hc
    simp only [permanently_delete_tenant, hu, hc, Bool.false_eq_true,
      if_false, hnd, Bool.not_false, if_true]
  · intro hd hc
    rw [permanently_delete_ok db id c u hu hc hd]
    have hgone : (db.utilities.filter (fun v => !(v.id == id))).find?
        (fun v => v.id == id) = none := by
      rw [List.find?_eq_none]
      intro v hv
      have hvmem := List.mem_filter.mp hv
      simp only [Bool.not_eq_true'] at hvmem
      simp [hvmem.2]
    refine ⟨rfl, hgone, ?_, ?_⟩
    · intro d hd2 habs
      have hdmem := List.mem_filter.mp hd2
      simp only [Bool.not_eq_true'] at hdmem
      rw [habs] at hdmem
      simp at hdmem
    · simp only [get_tenant_info, getUtility] at hgone ⊢
      rw [hgone]

/-- C6 (witness): the purge guard and the purge itself on the concrete
state: tenant 1 is live so its state is untouched and the error is the
not-soft-deleted one; tenant 2 is soft-deleted, is purged, and is then
reported not found. -/
theorem C6_permanent_delete_spec_witness :
    (permanently_delete_tenant sampleDB 1 (some ("Nairobi Water"))).2 = sampleDB ∧
    (permanently_delete_tenant sampleDB 1 (some ("Nairobi Water"))).1 =
      .error .notSoftDeleted ∧
    (permanently_delete_tenant sampleDB 2 (some ("Acme"))).1 = .ok true ∧
    get_tenant_info (permanently_delete_tenant sampleDB 2 (some ("Acme"))).2 2 =
      .error .notFound := by
  refine ⟨?_, ?_, ?_, ?_⟩
  · exact (C6_permanent_delete_spec sampleDB 1 (some ("Nairobi Water"))
      ⟨1, ("Nairobi Water"), ("nairobi_water"), true, false, none⟩
      (by decide)).1 rfl
  · exact (C6_permanent_delete_spec sampleDB 1 (some ("Nairobi Water"))
      ⟨1, ("Nairobi Water"), ("nairobi_water"), true, false, none⟩
      (by decide)).2.1 rfl (by decide)
  · exact ((C6_permanent_delete_spec sampleDB 2 (some ("Acme"))
      ⟨2, ("Acme"), ("acme"), false, true, some 3⟩
      (by decide)).2.2 rfl (by decide)).1
  · exact ((C6_permanent_delete_spec sampleDB 2 (some ("Acme"))
      ⟨2, ("Acme"), ("acme"), false, true, some 3⟩
      (by decide)).2.2 rfl (by decide)).2.2.2

/-- C8: the save hook generates a schema name only when none is set — a
row with a non-empty schema name keeps it — and none of the lifecycle
operations (soft delete, restore, status toggle) changes any tenant's
stored schema name. -/
theorem C8_schema_immutable (u : Utility) (db : DB) (id tid : Nat)
    (c : Option String) (b : Option Bool) (now : Nat) :
    (u.schema_name ≠ ("") → (Utility.save u).schema_name = u.schema_name) ∧
    ((getUtility (soft_delete_tenant db id c now).2 tid).map
        (fun v => v.schema_name) =
      (getUtility db tid).map (fun v => v.schema_name)) ∧
    ((getUtility (restore_tenant db id).2 tid).map (fun v => v.schema_name) =
      (getUtility db tid).map (fun v => v.schema_name)) ∧
    ((getUtility (toggle_tenant_status db id b).2 tid).map
        (fun v => v.schema_name) =
      (getUtility db tid).map (fun v => v.schema_name)) := by
  refine ⟨?_, ?_, ?_, ?_⟩
  · intro hne
    unfold Utility.save
    rw [if_neg (by simpa using hne)]
  · cases hu : getUtility db id with
    | none => simp [soft_delete_tenant, hu]
    | some u0 =>
      cases hc : confirmMismatch c u0.name with
      | true => simp [soft_delete_tenant, hu, hc]
      | false =>
        cases hd : u0.is_deleted with
        | true => simp [soft_delete_tenant, hu, hc, hd]
        | false =>
          rw [soft_delete_ok db id c now u0 hu hc hd]
          exact find?_schema_preserved db.utilities id tid u0
            { u0 with is_deleted := true, is_active := false, deleted_on := some now }
            hu rfl rfl
  · cases hu : getUtility db id with
    | none => simp [restore_tenant, hu]
    | some u0 =>
      cases hd : u0.is_deleted with
      | false => simp [restore_tenant, hu, hd]
      | true =>
        rw [restore_ok db id u0 hu hd]
        exact find?_schema_preserved db.utilities id tid u0
          { u0 with is_deleted := false, is_active := true, deleted_on := none }
          hu rfl rfl
  · cases hu : getUtility db id with
    | none => simp [toggle_tenant_status, hu]
    | some u0 =>
      obtain ⟨nb, heq⟩ := toggle_result db id b u0 hu
      rw [heq]
      exact find?_schema_preserved db.utilities id tid u0
        { u0 with is_active := nb } hu rfl rfl

/-- C8 (witness): the immutability theorem applied to the concrete
state. -/
theorem C8_schema_immutable_witness :
    (Utility.save ⟨1, ("Nairobi Water"), ("nairobi_water"), true, false, none⟩).schema_name =
      ("nairobi_water") ∧
    (getUtility (soft_delete_tenant sampleDB 1 none 5).2 1).map
        (fun v => v.schema_name) =
      (getUtility sampleDB 1).map (fun v => v.schema_name) := by
  constructor
  · exact (C8_schema_immutable
      ⟨1, ("Nairobi Water"), ("nairobi_water"), true, false, none⟩
      sampleDB 1 1 none none 5).1 (by decide)
  · exact (C8_schema_immutable
      ⟨1, ("Nairobi Water"), ("nairobi_water"), true, false, none⟩
      sampleDB 1 1 none none 5).2.1

/-- C9: `list_tenants` is a pure read returning a name-ordered list; a
tenant appears in the result exactly when it is in the table, is not
soft-deleted unless `include_deleted`, and is active when `active_only`;
in particular with `active_only=True` and `include_deleted=False` the
result is exactly the `ACTIVE` tenants. -/
theorem C9_list_tenants_spec (db : DB) (active_only include_deleted : Bool) :
    List.Pairwise (fun a b : Utility => a.name ≤ b.name)
      (list_tenants db active_only include_deleted) ∧
    (∀ u : Utility, u ∈ list_tenants db active_only include_deleted ↔
       (u ∈ db.utilities ∧ (include_deleted = true ∨ u.is_deleted = false) ∧
        (active_only = false ∨ u.is_active = true))) ∧
    (active_only = true → include_deleted = false →
       ∀ u : Utility, u ∈ list_tenants db active_only include_deleted ↔
         (u ∈ db.utilities ∧ u.is_active = true ∧ u.is_deleted = false)) := by
  have hsort := pairwise_name_mergeSort db.utilities
  refine ⟨?_, ?_, ?_⟩
  · cases active_only with
    | true =>
      cases include_deleted with
      | true => exact List.Pairwise.sublist (List.filter_sublist _) hsort
      | false =>
        exact List.Pairwise.sublist
          ((List.filter_sublist _).trans (List.filter_sublist _)) hsort
    | false =>
      cases include_deleted with
      | true => exact hsort
      | false => exact List.Pairwise.sublist (List.filter_sublist _) hsort
  · intro v
    cases active_only <;> cases include_deleted <;>
      (simp [list_tenants, List.mem_filter, List.mem_mergeSort]; try tauto)
  · intro ha hb v
    subst ha
    subst hb
    simp [list_tenants, List.mem_filter, List.mem_mergeSort]

/-- C9 (witness): on the concrete state, the active-only non-deleted
listing contains the `ACTIVE` tenant 1. -/
theorem C9_list_tenants_spec_witness :
    (⟨1, ("Nairobi Water"), ("nairobi_water"), true, false, none⟩ : Utility) ∈
      list_tenants sampleDB true false :=
  ((C9_list_tenants_spec sampleDB true false).2.2 rfl rfl
    ⟨1, ("Nairobi Water"), ("nairobi_water"), true, false, none⟩).mpr (by decide)

/-- C5: soft delete followed by restore returns a live tenant to
`is_active=True, is_deleted=False, deleted_on=None`, reactivates its
primary domain, and leaves its non-primary domains inactive (assuming
the data-model invariant that the tenant owns at most one primary
domain). -/
theorem C5_soft_delete_restore (db : DB) (id : Nat) (now : Nat) (u : Utility)
    (hu : getUtility db id = some u) (hnd : u.is_deleted = false)
    (hp : primaryCount db id ≤ 1) :
    (restore_tenant (soft_delete_tenant db id none now).2 id).1 =
      .ok { u with is_active := true, is_deleted := false, deleted_on := none } ∧
    getUtility (restore_tenant (soft_delete_tenant db id none now).2 id).2 id =
      some { u with is_active := true, is_deleted := false, deleted_on := none } ∧
    (∀ d ∈ (restore_tenant (soft_delete_tenant db id none now).2 id).2.domains,
       d.tenant = id →
         (d.is_primary = true → d.is_active = true) ∧
         (d.is_primary = false → d.is_active = false)) := by
  have hukey : u.id = id := by
    have h2 := List.find?_some hu
    exact eq_of_beq (by simpa using h2)
  rw [soft_delete_ok db id none now u hu rfl hnd]
  have hu1 : getUtility
      ⟨db.utilities.map (fun v => if v.id == u.id then
          { u with is_deleted := true, is_active := false, deleted_on := some now }
        else v),
       db.domains.map (fun d =>
         if d.tenant == id then { d with is_active := false } else d),
       db.schemas⟩ id =
      some { u with is_deleted := true, is_active := false, deleted_on := some now } :=
    find?_put_same db.utilities id u
      { u with is_deleted := true, is_active := false, deleted_on := some now }
      hu hukey
  rw [restore_ok _ id
    { u with is_deleted := true, is_active := false, deleted_on := some now }
    hu1 rfl]
  refine ⟨rfl, ?_, ?_⟩
  · exact find?_put_same _ id
      { u with is_deleted := true, is_active := false, deleted_on := some now }
      { u with is_active := true, is_deleted := false, deleted_on := none }
      hu1 hukey
  · apply activateFirstPrimary_spec
    · rw [deactivate_filter_primary]
      exact hp
    · exact deactivate_all_inactive id db.domains

/-- C5 (witness): the round trip applied to the concrete state. -/
theorem C5_soft_delete_restore_witness :
    (restore_tenant (soft_delete_tenant sampleDB 1 none 6).2 1).1 =
      .ok ⟨1, ("Nairobi Water"), ("nairobi_water"), true, false, none⟩ :=
  (C5_soft_delete_restore sampleDB 1 6
    ⟨1, ("Nairobi Water"), ("nairobi_water"), true, false, none⟩
    (by decide) rfl (by decide)).1

/-- C7: for a name whose normalization is non-empty, schema-name
generation succeeds with an identifier that is made only of lowercase
letters, digits and underscores, starts with a letter (it is the
normalized name prefixed with the `tenant_` namespace token when the
normalized name does not start with a letter), and differs from every
existing schema name — it is the base name itself or the base name with
an incremented `_k` suffix. -/
theorem C7_schema_name_spec (existing : List String) (name : String)
    (h : normalizeName name ≠ ("")) :
    ∃ s, _generate_schema_name existing name = some s ∧
      s ∉ existing ∧
      (∀ c ∈ s.data, isSchemaChar c = true) ∧
      (∃ c0 cs, s.data = c0 :: cs ∧ c0.isAlpha = true) ∧
      (s = (if (normalizeName name).data.head?.any Char.isAlpha then
              normalizeName name else ("tenant_") ++ normalizeName name) ∨
       ∃ k, 1 ≤ k ∧
         s = candidate (if (normalizeName name).data.head?.any Char.isAlpha then
               normalizeName name else ("tenant_") ++ normalizeName name) k) := by
  cases hdata : (normalizeName name).data with
  | nil =>
    have hempty : normalizeName name = ("") := String.ext (by rw [hdata])
    exact absurd hempty h
  | cons c cs =>
    have hbase_eq : _generate_schema_name existing name =
        some (schemaLoop existing
          (if c.isAlpha then normalizeName name
           else ("tenant_") ++ normalizeName name)
          (existing.length + 1) 1
          (if c.isAlpha then normalizeName name
           else ("tenant_") ++ normalizeName name)) := by
      simp only [_generate_schema_name, hdata]
    set base := (if c.isAlpha then normalizeName name
      else ("tenant_") ++ normalizeName name) with hbase
    have hprefix_chars : ∀ ch ∈ ("tenant_").data, isSchemaChar ch = true := by
      decide
    have hbase_chars : ∀ ch ∈ base.data, isSchemaChar ch = true := by
      rw [hbase]
      by_cases hal : c.isAlpha = true
      · rw [if_pos hal]
        exact normalize_chars name
      · rw [if_neg hal]
        intro ch hch
        rw [String.data_append] at hch
        rcases List.mem_append.mp hch with hch | hch
        · exact hprefix_chars ch hch
        · exact normalize_chars name ch hch
    have hbase_head : ∃ c0 cs0, base.data = c0 :: cs0 ∧ c0.isAlpha = true := by
      rw [hbase]
      by_cases hal : c.isAlpha = true
      · rw [if_pos hal]
        exact ⟨c, cs, hdata, hal⟩
      · rw [if_neg hal]
        refine ⟨('t'), ("enant_").data ++ (normalizeName name).data, ?_, by decide⟩
        rw [String.data_append, tenant_prefix_data]
        rfl
    refine ⟨schemaLoop existing base (existing.length + 1) 1 base,
      hbase_eq, ?_, ?_, ?_, ?_⟩
    · apply schemaLoop_not_mem
      right
      exact exists_free_candidate existing base 1
    · rcases schemaLoop_shape existing base (existing.length + 1) 1 base with
        hs | ⟨k, hk, hs⟩
      · rw [hs]
        exact hbase_chars
      · rw [hs]
        intro ch hch
        rw [candidate_data] at hch
        rcases List.mem_append.mp hch with hch | hch
        · exact hbase_chars ch hch
        · rcases List.mem_cons.mp hch with hch | hch
          · subst hch
            decide
          · exact natDigitsAux_schemaChar (k + 1) k ch hch
    · rcases hbase_head with ⟨c0, cs0, hb0, hal0⟩
      rcases schemaLoop_shape existing base (existing.length + 1) 1 base with
        hs | ⟨k, hk, hs⟩
      · exact ⟨c0, cs0, by rw [hs, hb0], hal0⟩
      · refine ⟨c0, cs0 ++ ('_') :: natDigits k, ?_, hal0⟩
        rw [hs, candidate_data, hb0]
        rfl
    · have hcond : (Option.any Char.isAlpha ((c :: cs).head?)) = c.isAlpha := rfl
      rw [hcond, ← hbase]
      rcases schemaLoop_shape existing base (existing.length + 1) 1 base with
        hs | ⟨k, hk, hs⟩
      · exact Or.inl hs
      · exact Or.inr ⟨k, hk, hs⟩

/-- C7 (witness): generation for the name `3M` against an existing
schema list already holding `tenant_3m`. -/
theorem C7_schema_name_spec_witness :
    ∃ s, _generate_schema_name [("tenant_3m")] ("3M") = some s ∧
      s ∉ [("tenant_3m")] ∧
      (∀ c ∈ s.data, isSchemaChar c = true) ∧
      (∃ c0 cs, s.data = c0 :: cs ∧ c0.isAlpha = true) ∧
      (s = (if (normalizeName ("3M")).data.head?.any Char.isAlpha then
              normalizeName ("3M") else ("tenant_") ++ normalizeName ("3M")) ∨
       ∃ k, 1 ≤ k ∧
         s = candidate (if (normalizeName ("3M")).data.head?.any Char.isAlpha then
               normalizeName ("3M") else ("tenant_") ++ normalizeName ("3M")) k) :=
  C7_schema_name_spec [("tenant_3m")] ("3M") (by decide)

end Distro
